import Mathlib

/-
Verification of the enterprise-ai-agent backend.

Shallow embedding of the Python sources:
  backend/orchestrator/orchestrator.py  (Orchestrator)
  backend/security/auth.py              (token issuance / validation)
  backend/session/session_manager.py    (SessionManager over a TTL key-value store)
  backend/api/main.py                   (HTTP /query handler's orchestrator call)

Python dict values are modelled by the JSON-like type `AVal`; Python dicts by
association lists with dict update semantics (`dupdate` keeps the position of
an existing key, appends otherwise, exactly like CPython dicts preserve
insertion order).  Exceptions are modelled by `Except`.  External library
calls (the OpenAI chat completion, `json.loads`, the jose JWT signing, bcrypt)
are abstracted: the completion call is a parameter of type
`Except String String` (an `error` is a raised exception), `json.loads` is a
parameter `String → Option Plan` (`none` is a raised `JSONDecodeError`), a JWT
is a record of its payload together with the key it was signed with (signature
verification succeeds exactly when the validating key equals the signing key),
and bcrypt hashing is an injective tag.
-/

/-- JSON-like values (model of the Python/JSON values flowing through dicts). -/
inductive AVal where
  | null : AVal
  | b : Bool → AVal
  | n : Nat → AVal
  | s : String → AVal
  | arr : List AVal → AVal
  | obj : List (String × AVal) → AVal

/-- Python dict with String keys, as an insertion-ordered association list. -/
abbrev PyDict (V : Type) : Type := List (String × V)

/-- Lookup in a Python dict model (first matching key). -/
def alookup {V : Type} (k : String) : PyDict V → Option V
  | [] => none
  | (k', v) :: rest => if k' = k then some v else alookup k rest

/-- Python `d[k] = v`: replace in place when the key exists (keeping its
position, as CPython dicts do), append otherwise. -/
def dupdate {V : Type} (m : PyDict V) (k : String) (v : V) : PyDict V :=
  if (alookup k m).isSome then m.map (fun p => if p.1 = k then (k, v) else p)
  else m ++ [(k, v)]

/-- The character `{` (written via its code point to keep it out of literals). -/
def lbrace : Char := Char.ofNat 123

/-- The character `}` (written via its code point). -/
def rbrace : Char := Char.ofNat 125

/-- Python `str.find(c)`: index of the first occurrence (`none` models -1). -/
def str_find (t : String) (c : Char) : Option Nat :=
  t.toList.findIdx? (fun x => x == c)

/-- Python `str.rfind(c)`: index of the last occurrence (`none` models -1). -/
def str_rfind (t : String) (c : Char) : Option Nat :=
  match (t.toList.reverse.findIdx? (fun x => x == c)) with
  | some i => some (t.toList.length - 1 - i)
  | none => none

/-- The JSON extraction of `Orchestrator._create_plan` (orchestrator.py
lines 150-157): `start_idx = plan_text.find(LBRACE)`,
`end_idx = plan_text.rfind(RBRACE) + 1`; the slice
`plan_text[start_idx:end_idx]` is returned when
`start_idx != -1 and end_idx > start_idx`, otherwise the code raises
(`no JSON found`), which the surrounding handler turns into the fallback. -/
def extract_json (t : String) : Option String :=
  match str_find t lbrace, str_rfind t rbrace with
  | some i, some j =>
      if i < j + 1 then some (String.mk ((t.toList.drop i).take (j + 1 - i)))
      else none
  | _, _ => none

/-- An execution plan as produced by `json.loads` on the model response.
Each field is optional because the parsed JSON object may lack the key
(the code reads every field with `plan.get(key, default)`). -/
structure Plan where
  intent : Option String
  actions : Option (List String)
  parameters : Option (PyDict (PyDict AVal))
  required_permissions : Option (List String)

/-- The hardcoded fallback plan of `_create_plan` (orchestrator.py 162-167). -/
def fallback_plan : Plan :=
  { intent := some "query"
  , actions := some ["search_database"]
  , parameters := some []
  , required_permissions := some ["read"] }

/-- `Orchestrator._create_plan` (orchestrator.py 81-169).  `llm_plan` is the
outcome of the chat-completion call (`Except.error` = the call raised);
`json_loads` abstracts `json.loads` (`none` = it raised).  Every failure path
lands in the `except` clause, which substitutes `fallback_plan`; the function
is total, so it never raises. -/
def create_plan (llm_plan : Except String String)
    (json_loads : String → Option Plan) : Plan :=
  match llm_plan with
  | .error _ => fallback_plan
  | .ok plan_text =>
    match extract_json plan_text with
    | none => fallback_plan
    | some js =>
      match json_loads js with
      | some plan => plan
      | none => fallback_plan

/-- `Orchestrator._check_permissions` (orchestrator.py 171-174):
`all(perm in user_permissions for perm in plan.get("required_permissions", []))`. -/
def check_permissions (plan : Plan) (user_permissions : List String) : Bool :=
  ((plan.required_permissions).getD []).all (fun perm => decide (perm ∈ user_permissions))

/-- An action handler: parameters in, result value out, `Except.error` models
a raised exception.  `Orchestrator.available_actions` maps names to these. -/
abbrev Handler : Type := PyDict AVal → Except String AVal

/-- The loop body of `Orchestrator._execute_plan` (orchestrator.py 180-189),
iterating over the plan's action list while threading the results dict and the
plan object itself (line 183 `params["context"] = context` mutates the dict
stored inside `plan["parameters"]` in place whenever the action has an entry
there, so the plan is threaded as state). -/
def exec_actions (avail : String → Option Handler) (context : AVal) :
    List String → PyDict AVal → Plan → PyDict AVal × Plan
  | [], results, plan => (results, plan)
  | action :: rest, results, plan =>
    match avail action with
    | none => exec_actions avail context rest results plan
    | some handler =>
      let entry := alookup action ((plan.parameters).getD [])
      let params := dupdate (entry.getD []) "context" context
      let plan' :=
        if entry.isSome then
          { plan with parameters := some (dupdate ((plan.parameters).getD []) action params) }
        else plan
      let results' :=
        match handler params with
        | .ok result => dupdate results action result
        | .error e => dupdate results action (AVal.obj [("error", AVal.s e)])
      exec_actions avail context rest results' plan'

/-- `Orchestrator._execute_plan` (orchestrator.py 176-191): returns the
results mapping together with the (possibly mutated) plan. -/
def execute_plan (avail : String → Option Handler) (plan : Plan) (context : AVal) :
    PyDict AVal × Plan :=
  exec_actions avail context ((plan.actions).getD []) [] plan

/-- `Orchestrator._generate_response` (orchestrator.py 193-247): the prompt
construction and the chat call are abstracted into `llm_response`; an
exception there is caught and becomes the apologetic string (line 247). -/
def generate_response (llm_response : Except String String) : String :=
  match llm_response with
  | .ok text => text
  | .error e => "I apologize, but I encountered an error processing your request: " ++ e

/-- The outcome dict of `plan_and_execute`; `none` models an absent key. -/
structure Outcome where
  success : Bool
  error : Option String := none
  required_permissions : Option (List String) := none
  response : Option String := none
  plan : Option Plan := none
  results : Option (PyDict AVal) := none
  timestamp : Option String := none

/-- The generic apology of the catch-all branch (orchestrator.py 78). -/
def apology : String :=
  "I apologize, but I encountered an error processing your request. Please try again."

/-- Steps 2-4 of `Orchestrator.plan_and_execute` (orchestrator.py 49-68),
after the plan has been created: permission gate, execution, response
synthesis, and assembly of the outcome dict.  The failure branch returns
before `_execute_plan` is ever called. -/
def plan_and_execute_body (plan : Plan) (user_permissions : List String)
    (avail : String → Option Handler) (llm_response : Except String String)
    (context : AVal) (now : Nat) : Outcome :=
  if check_permissions plan user_permissions then
    let rp := execute_plan avail plan context
    let response := generate_response llm_response
    { success := true
    , response := some response
    , plan := some rp.2
    , results := some rp.1
    , timestamp := some (toString now) }
  else
    { success := false
    , error := some "Insufficient permissions for requested action"
    , required_permissions := some ((plan.required_permissions).getD []) }

/-- The `try/except Exception` wrapper of `plan_and_execute`
(orchestrator.py 44-79): a body that raised `e` is converted into the uniform
failure outcome; a normal return passes through. -/
def plan_and_execute_exc (body : Except String Outcome) : Outcome :=
  match body with
  | .ok o => o
  | .error e =>
    { success := false
    , error := some ("Orchestration error: " ++ e)
    , response := some apology }

/-- `Orchestrator.plan_and_execute` (orchestrator.py 28-79).  `user_query` and
`conversation_history` only feed the two abstracted prompts, so they are
carried for signature fidelity. -/
def plan_and_execute (llm_plan : Except String String)
    (json_loads : String → Option Plan) (avail : String → Option Handler)
    (llm_response : Except String String) (user_query : String) (context : AVal)
    (conversation_history : List (PyDict AVal)) (user_permissions : List String)
    (now : Nat) : Outcome :=
  plan_and_execute_exc (Except.ok
    (plan_and_execute_body (create_plan llm_plan json_loads) user_permissions
      avail llm_response context now))

/-- A user record of the mock credential store (auth.py 31-40). -/
structure UserRec where
  username : String
  full_name : String
  email : String
  hashed_password : String
  disabled : Bool
  role : String
deriving DecidableEq

/-- Modelled bcrypt digest (`pwd_context.hash`): an injective tag; only its
opacity matters to the claims, none of which verify passwords. -/
def pwd_context_hash (p : String) : String := "bcrypt$" ++ p

/-- `fake_users_db` (auth.py 31-40), keyed by email. -/
def fake_users_db : PyDict UserRec :=
  [("demo@example.com",
    { username := "demo"
    , full_name := "Demo User"
    , email := "demo@example.com"
    , hashed_password := pwd_context_hash "demo123"
    , disabled := false
    , role := "admin" })]

/-- The claims a token carries: `sub` (may be absent) and `exp`, in epoch
seconds. -/
structure JwtPayload where
  sub : Option String
  exp : Nat
deriving DecidableEq

/-- A signed JWT, modelled as its payload together with the signing key;
signature verification succeeds exactly when the validating key matches. -/
structure JwtToken where
  payload : JwtPayload
  key : String
deriving DecidableEq

/-- Model of `jose.jwt.encode(claims, key, HS256)`. -/
def jwt_encode (payload : JwtPayload) (key : String) : JwtToken :=
  { payload := payload, key := key }

/-- Model of `jose.jwt.decode(token, key, [HS256])`: raises `JWTError` on a
signature mismatch, and `ExpiredSignatureError` (a `JWTError`) when the `exp`
claim lies strictly before the current time. -/
def jwt_decode (t : JwtToken) (key : String) (now : Nat) : Except Unit JwtPayload :=
  if t.key = key then
    (if t.payload.exp < now then .error () else .ok t.payload)
  else .error ()

/-- `create_access_token` (auth.py 45-53): copies the data (here: the `sub`
claim), sets `exp` to now plus the given delta (default 15 minutes), and
signs with the given secret (`settings.SECRET_KEY` at the call sites). -/
def create_access_token (sub : Option String) (expires_delta : Option Nat)
    (now : Nat) (secret_key : String) : JwtToken :=
  let expire :=
    match expires_delta with
    | some d => now + d
    | none => now + 15 * 60
  jwt_encode { sub := sub, exp := expire } secret_key

/-- The HTTPException raised by authentication failures. -/
structure HTTPError where
  status_code : Nat
  detail : String
  headers : PyDict String
deriving DecidableEq

/-- `credentials_exception` (auth.py 56-60): the one generic fault shared by
signature, expiry, missing-subject and unknown-subject failures. -/
def credentials_exception : HTTPError :=
  { status_code := 401
  , detail := "Could not validate credentials"
  , headers := [("WWW-Authenticate", "Bearer")] }

/-- `get_current_user` (auth.py 55-72): decode the token, read `sub`, look the
email up in `fake_users_db`; every failure raises `credentials_exception`.
`secret_key` stands for the module-level `settings.SECRET_KEY`; `now` is the
validation instant. -/
def get_current_user (token : JwtToken) (secret_key : String) (now : Nat) :
    Except HTTPError UserRec :=
  match jwt_decode token secret_key now with
  | .error _ => .error credentials_exception
  | .ok payload =>
    match payload.sub with
    | none => .error credentials_exception
    | some email =>
      match alookup email fake_users_db with
      | none => .error credentials_exception
      | some user => .ok user

/-- A message of the session conversation history (session_manager.py 7-11). -/
structure Message where
  role : String
  content : String
  timestamp : Nat
  metadata : PyDict AVal

/-- `UserProfile` (session_manager.py 13-19). -/
structure UserProfile where
  user_id : String
  name : String
  email : String
  role : String
  preferences : PyDict AVal
  intents : List String

/-- The JSON blob stored per session (session_manager.py 30-36). -/
structure SessionData where
  user_profile : UserProfile
  conversation_history : List Message
  context : PyDict AVal
  created_at : Nat
  last_activity : Nat

/-- The Redis backing store: key, expiry instant, stored session blob. -/
abbrev Store : Type := PyDict (Nat × SessionData)

/-- `SessionManager.session_timeout` (session_manager.py 24). -/
def session_timeout : Nat := 3600

/-- Model of `redis.setex(key, ttl, value)`. -/
def redis_setex (st : Store) (now : Nat) (key : String) (ttl : Nat)
    (data : SessionData) : Store :=
  dupdate st key (now + ttl, data)

/-- Model of `redis.get(key)`: absent once the expiry instant has passed. -/
def redis_get (st : Store) (now : Nat) (key : String) : Option SessionData :=
  match alookup key st with
  | some (exp, data) => if now < exp then some data else none
  | none => none

/-- Model of `redis.expire(key, ttl)`: refresh the expiry of a live key. -/
def redis_expire (st : Store) (now : Nat) (key : String) (ttl : Nat) : Store :=
  match alookup key st with
  | some (exp, data) => if now < exp then dupdate st key (now + ttl, data) else st
  | none => st

/-- `SessionManager.create_session` (session_manager.py 26-45): build the id
from the user id and the creation instant, store a fresh blob with an empty
conversation history under the session timeout. -/
def create_session (st : Store) (now : Nat) (user_id : String)
    (user_profile : UserProfile) : Store × String :=
  let session_id := "session:" ++ user_id ++ ":" ++ toString now
  ( redis_setex st now session_id session_timeout
      { user_profile := user_profile
      , conversation_history := []
      , context := []
      , created_at := now
      , last_activity := now }
  , session_id )

/-- `SessionManager.get_session` (session_manager.py 47-56): read the blob and
refresh its TTL on a hit; returns the updated store alongside the result. -/
def get_session (st : Store) (now : Nat) (session_id : String) :
    Store × Option SessionData :=
  match redis_get st now session_id with
  | some data => (redis_expire st now session_id session_timeout, some data)
  | none => (st, none)

/-- `SessionManager.update_conversation` (session_manager.py 58-70): append
the message and write the blob back; a no-op when the session is absent. -/
def update_conversation (st : Store) (now : Nat) (session_id : String)
    (message : Message) : Store :=
  match get_session st now session_id with
  | (st1, some sd) =>
    redis_setex st1 now session_id session_timeout
      { sd with
        conversation_history := sd.conversation_history ++ [message]
      , last_activity := now }
  | (st1, none) => st1

/-- Python `l[s:]` for an arbitrary integer start index `s`:
a negative start counts from the end (clamped at 0), a non-negative start is
clamped at the length. -/
def py_slice_from {α : Type} (s : Int) (l : List α) : List α :=
  if s < 0 then l.drop (l.length - min (-s).toNat l.length)
  else l.drop (min s.toNat l.length)

/-- `SessionManager.get_conversation_history` (session_manager.py 72-80):
returns `history[-limit:]` of a live session, `[]` otherwise.  The
`Message(**msg)` reconstruction is the identity in the typed model. -/
def get_conversation_history (st : Store) (now : Nat) (session_id : String)
    (limit : Int) : Store × List Message :=
  match get_session st now session_id with
  | (st1, some sd) => (st1, py_slice_from (-limit) sd.conversation_history)
  | (st1, none) => (st1, [])

/-- The argument record of the `orchestrator.plan_and_execute(...)` call made
by the HTTP `/query` handler (main.py 87-92). -/
structure OrchestratorCall where
  user_query : String
  context : AVal
  conversation_history : List (PyDict AVal)
  user_permissions : List String

/-- The fixed `admin_permissions` list of `process_query` (main.py 73-85). -/
def admin_permissions : List String :=
  [ "read"
  , "write"
  , "view_sensitive_data"
  , "view_financial_data"
  , "view_revenue_data"
  , "view_sales_data"
  , "analyze_data"
  , "analyze_sales_data"
  , "create_document"
  , "create_documents"
  , "access_admin_tools" ]

/-- `jsonable_encoder` applied to a user record (main.py 67). -/
def jsonable_encoder_user (u : UserRec) : AVal :=
  AVal.obj
    [ ("username", AVal.s u.username)
    , ("full_name", AVal.s u.full_name)
    , ("email", AVal.s u.email)
    , ("hashed_password", AVal.s u.hashed_password)
    , ("disabled", AVal.b u.disabled)
    , ("role", AVal.s u.role) ]

/-- The orchestrator call constructed by `process_query` (main.py 58-92):
context built from the authenticated user, history passed through, and the
fixed `admin_permissions` list injected as the caller's permission set. -/
def process_query_call (request_query : String)
    (request_history : List (PyDict AVal)) (current_user : UserRec)
    (now : Nat) : OrchestratorCall :=
  { user_query := request_query
  , context := AVal.obj
      [ ("user", jsonable_encoder_user current_user)
      , ("timestamp", AVal.s (toString now))
      , ("user_agent", AVal.s "web-client") ]
  , conversation_history := request_history
  , user_permissions := admin_permissions }

/-- Sample handler that always raises (used to instantiate seam claims). -/
def boom_handler : Handler := fun _ => Except.error "kaput"

/-- Sample handler that always succeeds. -/
def ok_handler : Handler := fun _ => Except.ok (AVal.s "fine")

/-- A sample registry with one failing and one succeeding handler. -/
def demo_avail : String → Option Handler := fun name =>
  if name = "boom" then some boom_handler
  else if name = "good" then some ok_handler
  else none

/-- A sample plan listing both handlers of `demo_avail`. -/
def demo_plan : Plan :=
  { intent := some "test"
  , actions := some ["boom", "good"]
  , parameters := some []
  , required_permissions := some [] }

/-- A sample plan whose executed action has a parameters entry. -/
def mutation_plan : Plan :=
  { intent := some "test"
  , actions := some ["good"]
  , parameters := some [("good", [])]
  , required_permissions := some [] }

/-- A sample plan requiring more permissions than the caller holds. -/
def rw_plan : Plan :=
  { intent := some "query"
  , actions := some []
  , parameters := some []
  , required_permissions := some ["read", "write"] }

/-- A two-character response text consisting of a `{` and a `}`. -/
def braces_text : String := String.mk [lbrace, rbrace]

/-- A sample plan with every key absent. -/
def empty_plan : Plan :=
  { intent := none, actions := none, parameters := none
  , required_permissions := none }

/-- A sample session-store profile. -/
def sample_profile : UserProfile :=
  { user_id := "u1", name := "U", email := "u@example.com", role := "admin"
  , preferences := [], intents := [] }

/-- A sample conversation message. -/
def sample_message : Message :=
  { role := "user", content := "hi", timestamp := 0, metadata := [] }

theorem alookup_append_none {V : Type} {k : String} {m : PyDict V} (l : PyDict V)
    (h : alookup k m = none) : alookup k (m ++ l) = alookup k l := by
  induction m with
  | nil => rfl
  | cons p rest ih =>
    obtain ⟨k', v⟩ := p
    by_cases hk : k' = k
    · simp [alookup, hk] at h
    · simp [alookup, hk] at h ⊢
      exact ih h

theorem alookup_none_keys {V : Type} {k : String} {m : PyDict V}
    (h : alookup k m = none) : ∀ p ∈ m, p.1 ≠ k := by
  induction m with
  | nil => intro p hp; cases hp
  | cons q rest ih =>
    obtain ⟨k', v⟩ := q
    by_cases hk : k' = k
    · simp [alookup, hk] at h
    · simp only [alookup, hk, if_neg, not_false_iff, if_false] at h
      intro p hp
      rcases List.mem_cons.mp hp with hp | hp
      · subst hp; exact hk
      · exact ih h p hp

theorem alookup_map_replace {V : Type} (k : String) (v : V) (m : PyDict V) :
    alookup k (m.map (fun p => if p.1 = k then (k, v) else p)) =
      if (alookup k m).isSome then some v else none := by
  induction m with
  | nil => rfl
  | cons q rest ih =>
    obtain ⟨k', w⟩ := q
    by_cases hk : k' = k
    · subst hk
      show alookup k' ((if k' = k' then (k', v) else (k', w)) :: _) = _
      rw [if_pos rfl]
      simp [alookup]
    · show alookup k ((if k' = k then (k, v) else (k', w)) :: _) = _
      rw [if_neg hk]
      simp only [alookup, hk, if_neg, not_false_iff, if_false, ih]

theorem alookup_map_replace_ne {V : Type} {a k : String} (v : V) (m : PyDict V)
    (h : a ≠ k) :
    alookup a (m.map (fun p => if p.1 = k then (k, v) else p)) = alookup a m := by
  induction m with
  | nil => rfl
  | cons q rest ih =>
    obtain ⟨k', w⟩ := q
    by_cases hk : k' = k
    · subst hk
      show alookup a ((if k' = k' then (k', v) else (k', w)) :: _) = _
      rw [if_pos rfl]
      have hka : ¬ k' = a := fun hh => h hh.symm
      simp only [alookup, hka, if_neg, not_false_iff, if_false, ih]
    · show alookup a ((if k' = k then (k, v) else (k', w)) :: _) = _
      rw [if_neg hk]
      by_cases hka : k' = a
      · simp [alookup, hka]
      · simp only [alookup, hka, if_neg, not_false_iff, if_false, ih]

theorem alookup_dupdate_self {V : Type} (k : String) (v : V) (m : PyDict V) :
    alookup k (dupdate m k v) = some v := by
  unfold dupdate
  cases hl : alookup k m with
  | some w => simp [alookup_map_replace, hl]
  | none =>
    simp [hl]
    rw [alookup_append_none _ hl]
    simp [alookup]

theorem alookup_append_some {V : Type} {a : String} {m : PyDict V} {v : V}
    (l : PyDict V) (h : alookup a m = some v) : alookup a (m ++ l) = some v := by
  induction m with
  | nil => simp [alookup] at h
  | cons p rest ih =>
    obtain ⟨k', w⟩ := p
    by_cases hk : k' = a
    · simp [alookup, hk] at h ⊢; exact h
    · simp only [alookup, hk, if_neg, not_false_iff, if_false, List.cons_append] at h ⊢
      exact ih h

theorem alookup_dupdate_ne {V : Type} {a k : String} (v : V) (m : PyDict V)
    (h : a ≠ k) : alookup a (dupdate m k v) = alookup a m := by
  unfold dupdate
  cases hl : alookup k m with
  | some w => simp [alookup_map_replace_ne v m h]
  | none =>
    simp only [hl, Option.isSome_none, Bool.false_eq_true, if_false]
    cases ha : alookup a m with
    | some w => exact alookup_append_some _ ha
    | none =>
      rw [alookup_append_none _ ha]
      have hka : ¬ k = a := fun hh => h hh.symm
      simp [alookup, hka]

theorem alookup_dupdate_isSome {V : Type} {a k : String} (v : V) (m : PyDict V)
    (h : (alookup a m).isSome = true) :
    (alookup a (dupdate m k v)).isSome = true := by
  by_cases hk : a = k
  · subst hk; simp [alookup_dupdate_self]
  · rw [alookup_dupdate_ne v m hk]; exact h

theorem dupdate_entries {V : Type} (k : String) (v : V) (m : PyDict V) :
    ∀ p ∈ dupdate m k v, p.1 = k → p = (k, v) := by
  unfold dupdate
  cases hl : alookup k m with
  | some w =>
    simp only [hl, Option.isSome_some, if_pos]
    intro p hp hpk
    simp only [List.mem_map] at hp
    obtain ⟨q, _, hq⟩ := hp
    by_cases hqk : q.1 = k
    · simp [hqk] at hq; exact hq.symm
    · simp [hqk] at hq; subst hq; exact absurd hpk hqk
  | none =>
    simp only [hl, Option.isSome_none, Bool.false_eq_true, if_neg, not_false_iff]
    intro p hp hpk
    rcases List.mem_append.mp hp with hp | hp
    · exact absurd hpk (alookup_none_keys hl p hp)
    · simp at hp; exact hp

theorem map_replace_fixed {V : Type} (k : String) (v : V) (m : PyDict V)
    (h : ∀ p ∈ m, p.1 = k → p = (k, v)) :
    m.map (fun p => if p.1 = k then (k, v) else p) = m := by
  induction m with
  | nil => rfl
  | cons q rest ih =>
    simp only [List.map_cons]
    have hhead : (if q.1 = k then (k, v) else q) = q := by
      by_cases hq : q.1 = k
      · rw [if_pos hq, h q (List.mem_cons_self q rest) hq]
      · rw [if_neg hq]
    rw [hhead, ih (fun p hp hpk => h p (List.mem_cons_of_mem q hp) hpk)]

theorem dupdate_idem {V : Type} (k : String) (v : V) (m : PyDict V) :
    dupdate (dupdate m k v) k v = dupdate m k v := by
  set d := dupdate m k v with hd
  have hs : (alookup k d).isSome = true := by
    rw [hd]; simp [alookup_dupdate_self]
  have hent : ∀ p ∈ d, p.1 = k → p = (k, v) := by
    rw [hd]; exact dupdate_entries k v m
  unfold dupdate
  rw [if_pos hs]
  exact map_replace_fixed k v d hent

theorem exec_actions_lookup_none (avail : String → Option Handler) (ctx : AVal)
    (a : String) (ha : avail a = none) :
    ∀ (acts : List String) (results : PyDict AVal) (plan : Plan),
      alookup a results = none →
      alookup a (exec_actions avail ctx acts results plan).1 = none := by
  intro acts
  induction acts with
  | nil => intro results plan h; simpa [exec_actions] using h
  | cons c rest ih =>
    intro results plan h
    cases hav : avail c with
    | none =>
      simp only [exec_actions, hav]
      exact ih results plan h
    | some handler =>
      have hac : a ≠ c := fun hc => by rw [← hc, ha] at hav; cases hav
      simp only [exec_actions, hav]
      apply ih
      cases hr : handler (dupdate ((alookup c ((plan.parameters).getD [])).getD []) "context" ctx) with
      | ok r => simp only [hr]; rw [alookup_dupdate_ne _ _ hac]; exact h
      | error e => simp only [hr]; rw [alookup_dupdate_ne _ _ hac]; exact h

theorem exec_actions_isSome (avail : String → Option Handler) (ctx : AVal)
    (b : String) :
    ∀ (acts : List String) (results : PyDict AVal) (plan : Plan),
      (alookup b results).isSome = true →
      (alookup b (exec_actions avail ctx acts results plan).1).isSome = true := by
  intro acts
  induction acts with
  | nil => intro results plan h; simpa [exec_actions] using h
  | cons c rest ih =>
    intro results plan h
    cases hav : avail c with
    | none =>
      simp only [exec_actions, hav]
      exact ih results plan h
    | some handler =>
      simp only [exec_actions, hav]
      apply ih
      cases hr : handler (dupdate ((alookup c ((plan.parameters).getD [])).getD []) "context" ctx) with
      | ok r => simp only [hr]; exact alookup_dupdate_isSome _ _ h
      | error e => simp only [hr]; exact alookup_dupdate_isSome _ _ h

theorem exec_actions_mem_isSome (avail : String → Option Handler) (ctx : AVal)
    (b : String) (hb : (avail b).isSome = true) :
    ∀ (acts : List String) (results : PyDict AVal) (plan : Plan),
      b ∈ acts →
      (alookup b (exec_actions avail ctx acts results plan).1).isSome = true := by
  intro acts
  induction acts with
  | nil => intro results plan h; cases h
  | cons c rest ih =>
    intro results plan h
    cases hav : avail c with
    | none =>
      have hbc : b ≠ c := fun hc => by rw [hc, hav] at hb; cases hb
      simp only [exec_actions, hav]
      exact ih results plan ((List.mem_cons.mp h).resolve_left hbc)
    | some handler =>
      simp only [exec_actions, hav]
      by_cases hbc : b = c
      · subst hbc
        apply exec_actions_isSome
        cases hr : handler (dupdate ((alookup b ((plan.parameters).getD [])).getD []) "context" ctx) with
        | ok r => simp only [hr]; simp [alookup_dupdate_self]
        | error e => simp only [hr]; simp [alookup_dupdate_self]
      · exact ih _ _ ((List.mem_cons.mp h).resolve_left hbc)

theorem exec_actions_error (avail : String → Option Handler) (ctx : AVal)
    (a : String) (h : Handler) (e : String)
    (ha : avail a = some h) (he : ∀ p, h p = Except.error e) :
    ∀ (acts : List String) (results : PyDict AVal) (plan : Plan),
      (a ∈ acts ∨ alookup a results = some (AVal.obj [("error", AVal.s e)])) →
      alookup a (exec_actions avail ctx acts results plan).1 =
        some (AVal.obj [("error", AVal.s e)]) := by
  intro acts
  induction acts with
  | nil =>
    intro results plan hcase
    rcases hcase with hmem | hres
    · cases hmem
    · simpa [exec_actions] using hres
  | cons c rest ih =>
    intro results plan hcase
    cases hav : avail c with
    | none =>
      have hac : a ≠ c := fun hc => by rw [← hc, ha] at hav; cases hav
      simp only [exec_actions, hav]
      apply ih
      rcases hcase with hmem | hres
      · exact Or.inl ((List.mem_cons.mp hmem).resolve_left hac)
      · exact Or.inr hres
    | some handler =>
      simp only [exec_actions, hav]
      by_cases hac : a = c
      · have hh : handler = h := by
          rw [← hac, ha] at hav
          exact (Option.some_inj.mp hav).symm
        apply ih
        right
        rw [hh, he _]
        rw [← hac]
        exact alookup_dupdate_self a _ results
      · apply ih
        rcases hcase with hmem | hres
        · exact Or.inl ((List.mem_cons.mp hmem).resolve_left hac)
        · right
          cases hr : handler (dupdate ((alookup c ((plan.parameters).getD [])).getD []) "context" ctx) with
          | ok r => simp only [hr]; rw [alookup_dupdate_ne _ _ hac]; exact hres
          | error e2 => simp only [hr]; rw [alookup_dupdate_ne _ _ hac]; exact hres

theorem exec_actions_plan_frame (avail : String → Option Handler) (ctx : AVal) :
    ∀ (acts : List String) (results : PyDict AVal) (plan : Plan),
      ((exec_actions avail ctx acts results plan).2).intent = plan.intent ∧
      ((exec_actions avail ctx acts results plan).2).actions = plan.actions ∧
      ((exec_actions avail ctx acts results plan).2).required_permissions =
        plan.required_permissions := by
  intro acts
  induction acts with
  | nil => intro results plan; simp [exec_actions]
  | cons c rest ih =>
    intro results plan
    cases hav : avail c with
    | none =>
      simp only [exec_actions, hav]
      exact ih results plan
    | some handler =>
      simp only [exec_actions, hav]
      refine ⟨(ih _ _).1.trans ?_, (ih _ _).2.1.trans ?_, (ih _ _).2.2.trans ?_⟩ <;>
        (split <;> rfl)

theorem exec_actions_params (avail : String → Option Handler) (ctx : AVal) :
    ∀ (acts : List String) (results : PyDict AVal) (plan : Plan) (a : String),
      alookup a (((exec_actions avail ctx acts results plan).2).parameters.getD []) =
        if a ∈ acts ∧ (avail a).isSome = true ∧
            (alookup a ((plan.parameters).getD [])).isSome = true
        then (alookup a ((plan.parameters).getD [])).map
          (fun entry => dupdate entry "context" ctx)
        else alookup a ((plan.parameters).getD []) := by
  intro acts
  induction acts with
  | nil =>
    intro results plan a
    simp [exec_actions]
  | cons c rest ih =>
    intro results plan a
    cases hav : avail c with
    | none =>
      simp only [exec_actions, hav]
      rw [ih results plan a]
      by_cases hac : a = c
      · have hfalse1 : ¬ (a ∈ rest ∧ (avail a).isSome = true ∧
            (alookup a ((plan.parameters).getD [])).isSome = true) := by
          rintro ⟨-, hs, -⟩; rw [hac, hav] at hs; cases hs
        have hfalse2 : ¬ (a ∈ c :: rest ∧ (avail a).isSome = true ∧
            (alookup a ((plan.parameters).getD [])).isSome = true) := by
          rintro ⟨-, hs, -⟩; rw [hac, hav] at hs; cases hs
        rw [if_neg hfalse1, if_neg hfalse2]
      · by_cases hcond : a ∈ rest ∧ (avail a).isSome = true ∧
            (alookup a ((plan.parameters).getD [])).isSome = true
        · rw [if_pos hcond, if_pos ⟨List.mem_cons_of_mem c hcond.1, hcond.2⟩]
        · rw [if_neg hcond, if_neg ?hne]
          case hne =>
            rintro ⟨hm, hx⟩
            exact hcond ⟨(List.mem_cons.mp hm).resolve_left hac, hx⟩
    | some handler =>
      simp only [exec_actions, hav]
      by_cases hent : (alookup c ((plan.parameters).getD [])).isSome = true
      · obtain ⟨p0, hp0⟩ := Option.isSome_iff_exists.mp hent
        rw [if_pos hent, ih]
        by_cases hac : a = c
        · subst hac
          have hplan1 : alookup a ((some (dupdate ((plan.parameters).getD []) a
              (dupdate ((alookup a ((plan.parameters).getD [])).getD []) "context" ctx))).getD []) =
              some (dupdate p0 "context" ctx) := by
            simp only [Option.getD_some]
            rw [alookup_dupdate_self, hp0]
            simp
          rw [hplan1]
          have hgoal : (if a ∈ a :: rest ∧ (avail a).isSome = true ∧
              (alookup a ((plan.parameters).getD [])).isSome = true
            then (alookup a ((plan.parameters).getD [])).map
              (fun entry => dupdate entry "context" ctx)
            else alookup a ((plan.parameters).getD [])) = some (dupdate p0 "context" ctx) := by
            rw [if_pos ⟨List.mem_cons_self a rest, by rw [hav]; rfl, hent⟩, hp0]
            rfl
          rw [hgoal]
          split
          · simp [dupdate_idem]
          · rfl
        · have hplan1 : alookup a ((some (dupdate ((plan.parameters).getD []) c
              (dupdate ((alookup c ((plan.parameters).getD [])).getD []) "context" ctx))).getD []) =
              alookup a ((plan.parameters).getD []) := by
            simp only [Option.getD_some]
            exact alookup_dupdate_ne _ _ hac
          rw [hplan1]
          by_cases hcond : a ∈ rest ∧ (avail a).isSome = true ∧
              (alookup a ((plan.parameters).getD [])).isSome = true
          · rw [if_pos hcond, if_pos ⟨List.mem_cons_of_mem c hcond.1, hcond.2⟩]
          · rw [if_neg hcond, if_neg ?hne2]
            case hne2 =>
              rintro ⟨hm, hx⟩
              exact hcond ⟨(List.mem_cons.mp hm).resolve_left hac, hx⟩
      · rw [if_neg hent, ih]
        by_cases hac : a = c
        · have hfalse1 : ¬ (a ∈ rest ∧ (avail a).isSome = true ∧
              (alookup a ((plan.parameters).getD [])).isSome = true) := by
            rintro ⟨-, -, hs⟩; rw [hac] at hs; exact hent hs
          have hfalse2 : ¬ (a ∈ c :: rest ∧ (avail a).isSome = true ∧
              (alookup a ((plan.parameters).getD [])).isSome = true) := by
            rintro ⟨-, -, hs⟩; rw [hac] at hs; exact hent hs
          rw [if_neg hfalse1, if_neg hfalse2]
        · by_cases hcond : a ∈ rest ∧ (avail a).isSome = true ∧
              (alookup a ((plan.parameters).getD [])).isSome = true
          · rw [if_pos hcond, if_pos ⟨List.mem_cons_of_mem c hcond.1, hcond.2⟩]
          · rw [if_neg hcond, if_neg ?hne3]
            case hne3 =>
              rintro ⟨hm, hx⟩
              exact hcond ⟨(List.mem_cons.mp hm).resolve_left hac, hx⟩

theorem check_permissions_iff (plan : Plan) (perms : List String) :
    check_permissions plan perms = true ↔
      ∀ p ∈ (plan.required_permissions).getD [], p ∈ perms := by
  simp [check_permissions, List.all_eq_true]

theorem create_session_lookup (st : Store) (now : Nat) (uid : String)
    (prof : UserProfile) :
    alookup (create_session st now uid prof).2 (create_session st now uid prof).1 =
      some (now + session_timeout,
        { user_profile := prof, conversation_history := [], context := [],
          created_at := now, last_activity := now }) := by
  unfold create_session redis_setex
  exact alookup_dupdate_self _ _ _

theorem update_conversation_live (st : Store) (now : Nat) (sid : String)
    (m : Message) (sd : SessionData)
    (h : alookup sid st = some (now + session_timeout, sd)) :
    alookup sid (update_conversation st now sid m) =
      some (now + session_timeout,
        { sd with
          conversation_history := sd.conversation_history ++ [m],
          last_activity := now }) := by
  have hlt : now < now + session_timeout := by unfold session_timeout; omega
  simp only [update_conversation, get_session, redis_get, redis_expire, redis_setex, h,
    if_pos hlt]
  exact alookup_dupdate_self _ _ _

theorem fold_update_conversation (now : Nat) (sid : String) :
    ∀ (msgs : List Message) (st : Store) (sd : SessionData),
      alookup sid st = some (now + session_timeout, sd) →
      ∃ sd', alookup sid (msgs.foldl (fun s m => update_conversation s now sid m) st) =
          some (now + session_timeout, sd') ∧
        sd'.conversation_history = sd.conversation_history ++ msgs := by
  intro msgs
  induction msgs with
  | nil =>
    intro st sd h
    exact ⟨sd, by simpa using h, by simp⟩
  | cons m rest ih =>
    intro st sd h
    have h1 := update_conversation_live st now sid m sd h
    obtain ⟨sd', hsd', hhist⟩ := ih (update_conversation st now sid m) _ h1
    refine ⟨sd', by simpa using hsd', ?_⟩
    rw [hhist]
    simp

theorem py_slice_from_tail {α : Type} (limit : Int) (h : 1 ≤ limit) (l : List α) :
    py_slice_from (-limit) l = l.drop (l.length - min limit.toNat l.length) ∧
      (py_slice_from (-limit) l).length = min l.length limit.toNat := by
  have hneg : -limit < 0 := by omega
  have heq : py_slice_from (-limit) l = l.drop (l.length - min limit.toNat l.length) := by
    unfold py_slice_from
    rw [if_pos hneg]
    simp
  refine ⟨heq, ?_⟩
  rw [heq, List.length_drop]
  have hle : min limit.toNat l.length ≤ l.length := Nat.min_le_right _ _
  omega

/-- C2: for every language-model response text that lacks a balanced JSON
object (and on any parse or API failure), `_create_plan` returns the fixed
fallback plan (intent "query", actions ["search_database"], empty parameters,
required_permissions ["read"]); being a total Lean function it never raises.
The hypothesis covers all three triggers at once: it is vacuously true when
the completion call raised (`llm_plan` is an `error`), and it says that
`json.loads` fails on the brace-to-brace slice — which holds whenever the
text contains no balanced JSON object (a successful parse of the slice would
itself be such an object), and whenever the parse fails for any other
reason. -/
theorem create_plan_fallback (llm_plan : Except String String)
    (json_loads : String → Option Plan)
    (h : ∀ t js, llm_plan = Except.ok t → extract_json t = some js →
      json_loads js = none) :
    create_plan llm_plan json_loads = fallback_plan := by
  cases llm_plan with
  | error e => rfl
  | ok t =>
    cases hext : extract_json t with
    | none => simp only [create_plan, hext]
    | some js => simp only [create_plan, hext, h t js rfl hext]

/-- C2 witness: a brace-free response under a parser that always fails maps
to the fallback plan. -/
theorem create_plan_fallback_witness :
    create_plan (Except.ok "no json here") (fun _ => none) = fallback_plan :=
  create_plan_fallback (Except.ok "no json here") (fun _ => none)
    (fun _ _ _ _ => rfl)

/-- C8: an action name absent from the registry is skipped: it never appears
as a key of the results mapping (and the total model raises nothing). -/
theorem execute_plan_unknown_skipped (avail : String → Option Handler)
    (plan : Plan) (ctx : AVal) (a : String) (ha : avail a = none) :
    alookup a (execute_plan avail plan ctx).1 = none := by
  unfold execute_plan
  exact exec_actions_lookup_none avail ctx a ha _ [] plan rfl

/-- C8 witness: the unregistered name "mystery" is absent from the results of
a concrete execution. -/
theorem execute_plan_unknown_skipped_witness :
    alookup "mystery" (execute_plan demo_avail demo_plan AVal.null).1 = none :=
  execute_plan_unknown_skipped demo_avail demo_plan AVal.null "mystery" rfl

/-- C3: an action whose handler raises gets `{"error": message}` recorded
under its key, and every other registered action of the same plan still
executes and populates its own result key. -/
theorem execute_plan_error_isolation (avail : String → Option Handler)
    (plan : Plan) (ctx : AVal) (a : String) (h : Handler) (e : String)
    (ha : avail a = some h) (hmem : a ∈ (plan.actions).getD [])
    (he : ∀ p, h p = Except.error e) :
    alookup a (execute_plan avail plan ctx).1 =
      some (AVal.obj [("error", AVal.s e)]) ∧
    ∀ b ∈ (plan.actions).getD [], (avail b).isSome = true →
      (alookup b (execute_plan avail plan ctx).1).isSome = true := by
  unfold execute_plan
  constructor
  · exact exec_actions_error avail ctx a h e ha he _ [] plan (Or.inl hmem)
  · intro b hb hbs
    exact exec_actions_mem_isSome avail ctx b hbs _ [] plan hb

/-- C3 witness: "boom" always raises "kaput" and is recorded as an error
object, while "good" still populates its own key. -/
theorem execute_plan_error_isolation_witness :
    alookup "boom" (execute_plan demo_avail demo_plan AVal.null).1 =
      some (AVal.obj [("error", AVal.s "kaput")]) ∧
    (alookup "good" (execute_plan demo_avail demo_plan AVal.null).1).isSome = true := by
  have h := execute_plan_error_isolation demo_avail demo_plan AVal.null "boom"
    boom_handler "kaput" rfl (by decide) (fun _ => rfl)
  exact ⟨h.1, h.2 "good" (by decide) rfl⟩

/-- C9: a plan whose required_permissions key is absent or holds the empty
list passes the permission check for every caller permission set (the empty
one included), so `plan_and_execute`'s body proceeds to execute the actions
unconditionally and reports success with the execution results. -/
theorem check_permissions_vacuous (plan : Plan) (perms : List String)
    (h : plan.required_permissions = none ∨ plan.required_permissions = some []) :
    check_permissions plan perms = true ∧
    ∀ (avail : String → Option Handler) (llm_response : Except String String)
      (ctx : AVal) (now : Nat),
      (plan_and_execute_body plan perms avail llm_response ctx now).success = true ∧
      (plan_and_execute_body plan perms avail llm_response ctx now).results =
        some (execute_plan avail plan ctx).1 := by
  have hchk : check_permissions plan perms = true := by
    rcases h with h | h <;> simp [check_permissions, h]
  refine ⟨hchk, ?_⟩
  intro avail llm_response ctx now
  constructor
  · simp [plan_and_execute_body, hchk]
  · simp [plan_and_execute_body, hchk]

/-- C9 witness: the all-absent plan passes the check against the empty
permission set and its body reports success. -/
theorem check_permissions_vacuous_witness :
    check_permissions empty_plan [] = true ∧
    (plan_and_execute_body empty_plan [] (fun _ => none) (Except.ok "r")
      AVal.null 0).success = true := by
  have h := check_permissions_vacuous empty_plan [] (Or.inl rfl)
  exact ⟨h.1, (h.2 (fun _ => none) (Except.ok "r") AVal.null 0).1⟩

/-- C6: the catch-all of `plan_and_execute` converts any exception raised by
its body into the uniform failure outcome (success false, an "Orchestration
error: ..." message, and the generic apologetic response), and the full
`plan_and_execute` is exactly this wrapper applied to its (total) body, so no
exception ever reaches the caller. -/
theorem plan_and_execute_catch_all :
    (∀ e : String, plan_and_execute_exc (Except.error e) =
      { success := false
      , error := some ("Orchestration error: " ++ e)
      , required_permissions := none
      , response := some apology
      , plan := none
      , results := none
      , timestamp := none }) ∧
    (∀ (llm_plan : Except String String) (json_loads : String → Option Plan)
      (avail : String → Option Handler) (llm_response : Except String String)
      (user_query : String) (context : AVal)
      (conversation_history : List (PyDict AVal))
      (user_permissions : List String) (now : Nat),
      plan_and_execute llm_plan json_loads avail llm_response user_query context
          conversation_history user_permissions now =
        plan_and_execute_exc (Except.ok (plan_and_execute_body
          (create_plan llm_plan json_loads) user_permissions avail llm_response
          context now))) :=
  ⟨fun _ => rfl, fun _ _ _ _ _ _ _ _ _ => rfl⟩

/-- C7: the HTTP /query handler passes the same fixed, maximal permission
list to plan_and_execute for every authenticated user and query, independent
of the user's role or identity. -/
theorem process_query_fixed_permissions :
    (∀ (q : String) (h : List (PyDict AVal)) (u : UserRec) (now : Nat),
      (process_query_call q h u now).user_permissions = admin_permissions) ∧
    (∀ (q : String) (h : List (PyDict AVal)) (u u2 : UserRec) (now now2 : Nat),
      (process_query_call q h u now).user_permissions =
        (process_query_call q h u2 now2).user_permissions) ∧
    admin_permissions =
      [ "read", "write", "view_sensitive_data", "view_financial_data"
      , "view_revenue_data", "view_sales_data", "analyze_data"
      , "analyze_sales_data", "create_document", "create_documents"
      , "access_admin_tools" ] :=
  ⟨fun _ _ _ _ => rfl, fun _ _ _ _ _ _ => rfl, rfl⟩

/-- C1 (amended): `plan_and_execute` proceeds to execute actions (its outcome
carries a results mapping) if and only if every entry of the created plan's
required_permissions list is a member of the caller's permission set; when
any entry is absent, no action is run (the outcome has no results key,
since the failure branch returns before `_execute_plan`) and the failure
payload lists the plan's full required_permissions list — a superset of the
missing permissions, not exactly the missing set. -/
theorem plan_and_execute_permission_gate
    (llm_plan : Except String String) (json_loads : String → Option Plan)
    (avail : String → Option Handler) (llm_response : Except String String)
    (user_query : String) (context : AVal)
    (conversation_history : List (PyDict AVal)) (perms : List String)
    (now : Nat) (plan : Plan)
    (hplan : create_plan llm_plan json_loads = plan) :
    ((plan_and_execute llm_plan json_loads avail llm_response user_query
        context conversation_history perms now).results.isSome = true ↔
      ∀ p ∈ (plan.required_permissions).getD [], p ∈ perms) ∧
    ((¬ ∀ p ∈ (plan.required_permissions).getD [], p ∈ perms) →
      plan_and_execute llm_plan json_loads avail llm_response user_query
          context conversation_history perms now =
        { success := false
        , error := some "Insufficient permissions for requested action"
        , required_permissions := some ((plan.required_permissions).getD [])
        , response := none
        , plan := none
        , results := none
        , timestamp := none }) := by
  unfold plan_and_execute plan_and_execute_exc
  rw [hplan]
  by_cases hchk : check_permissions plan perms = true
  · constructor
    · simp only [plan_and_execute_body, hchk, if_true]
      simp only [Option.isSome_some, true_iff]
      exact (check_permissions_iff plan perms).mp hchk
    · intro hno
      exact absurd ((check_permissions_iff plan perms).mp hchk) hno
  · have hfalse : check_permissions plan perms = false :=
      Bool.eq_false_iff.mpr hchk
    have hno : ¬ ∀ p ∈ (plan.required_permissions).getD [], p ∈ perms :=
      fun hall => hchk ((check_permissions_iff plan perms).mpr hall)
    constructor
    · simp only [plan_and_execute_body, hfalse, Bool.false_eq_true, if_false]
      simpa using hno
    · intro _
      simp only [plan_and_execute_body, hfalse, Bool.false_eq_true, if_false]

/-- C1 witness: with the fallback plan (requiring only "read") and caller
permissions ["read"], the outcome carries a results mapping. -/
theorem plan_and_execute_permission_gate_witness :
    (plan_and_execute (Except.error "down") (fun _ => none) demo_avail
        (Except.ok "r") "q" AVal.null [] ["read"] 0).results.isSome = true := by
  have h := plan_and_execute_permission_gate (Except.error "down")
    (fun _ => none) demo_avail (Except.ok "r") "q" AVal.null [] ["read"] 0
    fallback_plan rfl
  exact h.1.mpr (by decide)

/-- C1 counterexample: with a plan requiring ["read", "write"] and caller
permissions ["read"], the failure payload's required_permissions field holds
the full list ["read", "write"], while the set of missing permissions is
exactly ["write"]; the payload therefore does not list exactly the missing
set, refuting the claim as stated. -/
theorem plan_and_execute_missing_set_cex :
    (plan_and_execute (Except.ok braces_text) (fun _ => some rw_plan)
        demo_avail (Except.ok "r") "q" AVal.null [] ["read"] 0).required_permissions =
      some ["read", "write"] ∧
    (["read", "write"].filter (fun p => decide (¬ p ∈ ["read"]))) = ["write"] ∧
    some ["read", "write"] ≠ some ["write"] := by
  refine ⟨rfl, by decide, by decide⟩

/-- C10: executing a plan mutates it in place: every executed action (listed
in the plan and present in the registry) that has an entry in the plan's
parameters mapping gets the shared context stored under key "context" in
that entry; all other plan fields (intent, actions, required_permissions)
and all other parameters entries are unchanged; whenever some executed entry
did not already hold this exact context, the mutated plan — which is the one
placed in the successful outcome payload — differs from the plan as
produced by planning. -/
theorem execute_plan_context_mutation (avail : String → Option Handler)
    (plan : Plan) (ctx : AVal) :
    ((execute_plan avail plan ctx).2).intent = plan.intent ∧
    ((execute_plan avail plan ctx).2).actions = plan.actions ∧
    ((execute_plan avail plan ctx).2).required_permissions =
      plan.required_permissions ∧
    (∀ a entry, a ∈ (plan.actions).getD [] → (avail a).isSome = true →
      alookup a ((plan.parameters).getD []) = some entry →
      alookup a ((((execute_plan avail plan ctx).2).parameters).getD []) =
        some (dupdate entry "context" ctx)) ∧
    (∀ a, (¬ a ∈ (plan.actions).getD [] ∨ (avail a).isSome = false ∨
        alookup a ((plan.parameters).getD []) = none) →
      alookup a ((((execute_plan avail plan ctx).2).parameters).getD []) =
        alookup a ((plan.parameters).getD [])) ∧
    (∀ a entry, a ∈ (plan.actions).getD [] → (avail a).isSome = true →
      alookup a ((plan.parameters).getD []) = some entry →
      alookup "context" entry ≠ some ctx →
      (execute_plan avail plan ctx).2 ≠ plan) ∧
    (∀ (perms : List String) (llm_response : Except String String) (now : Nat),
      check_permissions plan perms = true →
      (plan_and_execute_body plan perms avail llm_response ctx now).plan =
        some (execute_plan avail plan ctx).2) := by
  obtain ⟨h1, h2, h3⟩ :=
    exec_actions_plan_frame avail ctx ((plan.actions).getD []) [] plan
  have hparams :=
    fun a => exec_actions_params avail ctx ((plan.actions).getD []) [] plan a
  have hmut : ∀ a entry, a ∈ (plan.actions).getD [] → (avail a).isSome = true →
      alookup a ((plan.parameters).getD []) = some entry →
      alookup a ((((execute_plan avail plan ctx).2).parameters).getD []) =
        some (dupdate entry "context" ctx) := by
    intro a entry hmem hav hent
    unfold execute_plan
    rw [hparams a, if_pos ⟨hmem, hav, by rw [hent]; rfl⟩, hent]
    rfl
  refine ⟨h1, h2, h3, hmut, ?_, ?_, ?_⟩
  · intro a hcase
    unfold execute_plan
    rw [hparams a]
    apply if_neg
    rintro ⟨hm, hs, he⟩
    rcases hcase with hc | hc | hc
    · exact hc hm
    · rw [hc] at hs; cases hs
    · rw [hc] at he; cases he
  · intro a entry hmem hav hent hctx heq
    have h4 := hmut a entry hmem hav hent
    rw [heq, hent] at h4
    have hinj : entry = dupdate entry "context" ctx := Option.some_inj.mp h4
    apply hctx
    nth_rewrite 1 [hinj]
    exact alookup_dupdate_self _ _ _
  · intro perms llm_response now hchk
    simp [plan_and_execute_body, hchk]

/-- C10 witness: the entry of the executed action "good" gains the shared
context under "context", and the mutated plan differs from the original. -/
theorem execute_plan_context_mutation_witness :
    alookup "good"
        ((((execute_plan demo_avail mutation_plan (AVal.s "shared")).2).parameters).getD []) =
      some (dupdate [] "context" (AVal.s "shared")) ∧
    (execute_plan demo_avail mutation_plan (AVal.s "shared")).2 ≠ mutation_plan := by
  have h := execute_plan_context_mutation demo_avail mutation_plan (AVal.s "shared")
  refine ⟨h.2.2.2.1 "good" [] (by decide) rfl rfl, ?_⟩
  exact h.2.2.2.2.2.1 "good" [] (by decide) rfl rfl (fun hc => by cases hc)

theorem fake_users_db_email {S : String} {u : UserRec}
    (h : alookup S fake_users_db = some u) : u.email = S := by
  simp only [fake_users_db, alookup] at h
  split at h
  · rename_i heq
    cases h
    exact heq
  · exact Option.noConfusion h

/-- C4: issuing a token for a (known) subject S and immediately validating it
returns S's user record, whose email is S; validating any token strictly
after its encoded expiry instant fails with the authentication fault;
validating a token signed with a different secret fails with that same
generic fault; and a well-signed, unexpired token for an unknown subject
fails with the same generic fault as well — all three failures are literally
the one `credentials_exception` value. -/
theorem token_validation :
    (∀ (S : String) (u : UserRec) (d now : Nat) (secret : String),
      alookup S fake_users_db = some u →
      get_current_user (create_access_token (some S) (some d) now secret)
          secret now = Except.ok u ∧ u.email = S) ∧
    (∀ (t : JwtToken) (secret : String) (now : Nat), t.payload.exp < now →
      get_current_user t secret now = Except.error credentials_exception) ∧
    (∀ (t : JwtToken) (secret : String) (now : Nat), t.key ≠ secret →
      get_current_user t secret now = Except.error credentials_exception) ∧
    (∀ (S : String) (d now now2 : Nat) (secret : String),
      alookup S fake_users_db = none →
      ¬ (create_access_token (some S) (some d) now secret).payload.exp < now2 →
      get_current_user (create_access_token (some S) (some d) now secret)
          secret now2 = Except.error credentials_exception) := by
  refine ⟨?_, ?_, ?_, ?_⟩
  · intro S u d now secret h
    have hexp : ¬ now + d < now := by omega
    constructor
    · simp [get_current_user, create_access_token, jwt_encode, jwt_decode,
        hexp, h]
    · exact fake_users_db_email h
  · intro t secret now hexp
    by_cases hk : t.key = secret <;>
      simp [get_current_user, jwt_decode, hk, hexp]
  · intro t secret now hk
    simp [get_current_user, jwt_decode, hk]
  · intro S d now now2 secret hdb hexp
    simp only [create_access_token, jwt_encode] at hexp ⊢
    simp [get_current_user, jwt_decode, hdb, hexp]

/-- C4 witness: the demo subject round-trips to its record; an expired token,
a token under the wrong secret, and a fresh token for an unknown subject all
fail with the same `credentials_exception`. -/
theorem token_validation_witness :
    get_current_user (create_access_token (some "demo@example.com") (some 60)
        0 "sek") "sek" 0 =
      Except.ok
        { username := "demo"
        , full_name := "Demo User"
        , email := "demo@example.com"
        , hashed_password := pwd_context_hash "demo123"
        , disabled := false
        , role := "admin" } ∧
    get_current_user
        { payload := { sub := some "demo@example.com", exp := 5 }, key := "sek" }
        "sek" 10 = Except.error credentials_exception ∧
    get_current_user
        { payload := { sub := some "demo@example.com", exp := 100 }, key := "other" }
        "sek" 0 = Except.error credentials_exception ∧
    get_current_user (create_access_token (some "ghost@example.com") (some 60)
        0 "sek") "sek" 0 = Except.error credentials_exception := by
  refine ⟨?_, ?_, ?_, ?_⟩
  · exact (token_validation.1 "demo@example.com" _ 60 0 "sek" rfl).1
  · exact token_validation.2.1 _ "sek" 10 (by decide)
  · exact token_validation.2.2.1 _ "sek" 0 (by decide)
  · exact token_validation.2.2.2 "ghost@example.com" 60 0 0 "sek" rfl (by decide)

/-- C5 (amended): for every session, every list of appended messages and
every requested limit that is at least 1, `get_conversation_history` returns
exactly min(N, limit) messages — the trailing slice of the history — in the
order they were appended.  (For limit = 0 the code's `history[-limit:]`
slice returns the entire history instead, refuting the unrestricted
claim.) -/
theorem conversation_history_limit (st : Store) (now : Nat) (uid : String)
    (profile : UserProfile) (msgs : List Message) (limit : Int)
    (hlim : 1 ≤ limit) (sid : String)
    (hsid : (create_session st now uid profile).2 = sid) (st2 : Store)
    (hst2 : msgs.foldl (fun s m => update_conversation s now sid m)
        (create_session st now uid profile).1 = st2) :
    (get_conversation_history st2 now sid limit).2 =
      msgs.drop (msgs.length - min limit.toNat msgs.length) ∧
    ((get_conversation_history st2 now sid limit).2).length =
      min msgs.length limit.toNat := by
  subst hsid
  subst hst2
  have h0 := create_session_lookup st now uid profile
  obtain ⟨sd', hsd', hhist⟩ := fold_update_conversation now _ msgs _ _ h0
  have hlt : now < now + session_timeout := by unfold session_timeout; omega
  simp only [get_conversation_history, get_session, redis_get, hsd',
    if_pos hlt]
  rw [hhist]
  simp only [List.nil_append]
  exact py_slice_from_tail limit hlim msgs

/-- C5 witness: one appended message, limit 1: exactly one message comes
back, in order. -/
theorem conversation_history_limit_witness :
    (get_conversation_history
        (List.foldl
          (fun s m => update_conversation s 0 (create_session [] 0 "u" sample_profile).2 m)
          (create_session [] 0 "u" sample_profile).1 [sample_message])
        0 (create_session [] 0 "u" sample_profile).2 1).2 =
      [sample_message].drop
        ([sample_message].length - min (1 : Int).toNat [sample_message].length) ∧
    ((get_conversation_history
        (List.foldl
          (fun s m => update_conversation s 0 (create_session [] 0 "u" sample_profile).2 m)
          (create_session [] 0 "u" sample_profile).1 [sample_message])
        0 (create_session [] 0 "u" sample_profile).2 1).2).length =
      min [sample_message].length (1 : Int).toNat :=
  conversation_history_limit [] 0 "u" sample_profile [sample_message] 1
    (by decide) _ rfl _ rfl

/-- C5 counterexample: after appending N = 1 message, requesting limit = 0
returns 1 message (the slice `history[-0:]` is the whole history), not
min(1, 0) = 0, refuting the claim for the limit 0. -/
theorem conversation_history_limit_cex :
    ((get_conversation_history
        (List.foldl
          (fun s m => update_conversation s 0 (create_session [] 0 "u" sample_profile).2 m)
          (create_session [] 0 "u" sample_profile).1 [sample_message])
        0 (create_session [] 0 "u" sample_profile).2 0).2).length = 1 ∧
    (1 : Nat) ≠ min 1 (0 : Int).toNat :=
  ⟨rfl, by decide⟩
